import Mathlib

/-!
Verification of the OpenRAG SDK streaming core and its frontend helpers.

The streaming chat client (transport layer, event decoder, stream
aggregator, scoped stream handle) is documented by the repository's spec
and README but its implementation module is not among the provided source
files; those components are modelled from the spec below, each marked in
its doc comment.  The document-ingestion client (`DocumentsClient.ingest`)
and the `formatFilesToDelete` helper are embedded directly from the
TypeScript source.
-/

/-- Modelled from the spec: a citation record carried by a `sources`
event (`{ filename, score, text, ... }`); the streaming module holding
this type is not under the provided sources. -/
structure Source where
  filename : String
  score : Rat
  text : String
deriving DecidableEq, Repr

/-- Modelled from the spec: the `StreamEvent` tagged union of the event
decoder (`content | sources | done | error`). -/
inductive StreamEvent where
  | content (delta : String)
  | sources (sources : List Source)
  | done (chatId : String)
  | error (code message : String)
deriving DecidableEq, Repr

/-- Modelled from the spec: the result of JSON-parsing one event block's
accumulated data lines — the fields the decoder inspects, each possibly
absent.  Stands for the external `JSON.parse`, which is not repository
code. -/
structure JsonEvent where
  type : String
  delta : Option String
  sources : Option (List Source)
  chatId : Option String
  code : Option String
  message : Option String
deriving DecidableEq, Repr

/-- Modelled from the spec: one line of the line-oriented wire protocol,
already split on line boundaries — either a blank separator line or a
data line carrying its raw payload text. -/
inductive Line where
  | blank
  | data (raw : String)
deriving DecidableEq, Repr

/-- Modelled from the spec: a terminal event (`done` or `error`) ends the
stream. -/
def isTerminal : StreamEvent → Bool
  | StreamEvent.done _ => true
  | StreamEvent.error _ _ => true
  | _ => false

/-- Modelled from the spec: classification of a parsed JSON document into
the StreamEvent union by its explicit `type` discriminator; an
unrecognized `type` yields `none` (the block is skipped). -/
def classify (j : JsonEvent) : Option StreamEvent :=
  if j.type = "content" then some (StreamEvent.content (j.delta.getD ""))
  else if j.type = "sources" then some (StreamEvent.sources (j.sources.getD []))
  else if j.type = "done" then some (StreamEvent.done (j.chatId.getD ""))
  else if j.type = "error" then
    some (StreamEvent.error (j.code.getD "") (j.message.getD ""))
  else none

/-- Joins one block's accumulated data lines before JSON parsing. -/
def joinLines : List String → String
  | [] => ""
  | [s] => s
  | s :: rest => s ++ "\n" ++ joinLines rest

/-- Modelled from the spec: outcome of decoding one byte stream — the
decoded events in arrival order, whether a malformed data line raised a
decode error, and the lines never requested from the transport because
decoding stopped first. -/
structure DecodeResult where
  events : List StreamEvent
  decodeErr : Bool
  leftover : List Line
deriving DecidableEq, Repr

/-- Modelled from the spec: the event decoder.  It buffers data lines,
parses the accumulated JSON at each blank-line separator, skips blocks
with an unrecognized `type`, stops with a decode error on malformed JSON,
stops after a terminal (`done`/`error`) event without pulling further
lines, and silently discards a partial block left in the buffer when the
line stream ends. -/
def decodeLoop (parse : String → Option JsonEvent) :
    List Line → List String → DecodeResult
  | [], _ => ⟨[], false, []⟩
  | Line.data s :: rest, buf => decodeLoop parse rest (buf ++ [s])
  | Line.blank :: rest, buf =>
    match buf with
    | [] => decodeLoop parse rest []
    | _ :: _ =>
      match parse (joinLines buf) with
      | none => ⟨[], true, rest⟩
      | some j =>
        match classify j with
        | none => decodeLoop parse rest []
        | some e =>
          if isTerminal e then ⟨[e], false, rest⟩
          else
            let r := decodeLoop parse rest []
            ⟨e :: r.events, r.decodeErr, r.leftover⟩

/-- Encodes a list of block payload strings as wire lines: each block is
one data line followed by the blank separator line. -/
def encode : List String → List Line
  | [] => []
  | b :: bs => Line.data b :: Line.blank :: encode bs

/-- A block is clean when it parses and does not stop decoding: either
its `type` is unrecognized (skipped) or it yields a non-terminal event. -/
def cleanBlock (parse : String → Option JsonEvent) (b : String) : Bool :=
  match parse b with
  | none => false
  | some j =>
    match classify j with
    | none => true
    | some e => !isTerminal e

/-- The event a single block decodes to, if any. -/
def blockEvent (parse : String → Option JsonEvent) (b : String) :
    Option StreamEvent :=
  (parse b).bind classify

/-- The events a list of blocks decodes to, one per recognized block. -/
def eventsOf (parse : String → Option JsonEvent) (bs : List String) :
    List StreamEvent :=
  bs.filterMap (blockEvent parse)

/-- Concatenation of all `content` deltas of an event list, in order. -/
def concatDeltas : List StreamEvent → String
  | [] => ""
  | StreamEvent.content d :: es => d ++ concatDeltas es
  | _ :: es => concatDeltas es

/-- Concatenation of all `sources` payload entries of an event list, in
order. -/
def concatSources : List StreamEvent → List Source
  | [] => []
  | StreamEvent.sources xs :: es => xs ++ concatSources es
  | _ :: es => concatSources es

/-- Modelled from the spec: the AggregatedStreamState snapshot — the
accumulated text, the ordered source list collected so far, and the
conversation identifier (unset until a `done` event arrives). -/
structure Snapshot where
  text : String
  sources : List Source
  chatId : Option String
deriving DecidableEq, Repr

/-- Modelled from the spec: the error a consumption path raises — a
remote error event delivered by the server (code and message), or a
decode error from malformed JSON in an event block. -/
inductive StreamError where
  | remote (code message : String)
  | decode
deriving DecidableEq, Repr

/-- Modelled from the spec: one event's effect on the aggregate
snapshot: `content` appends its delta to the text, `sources` appends its
entries to the source list, `done` records the conversation identifier,
and an `error` event leaves the aggregate untouched. -/
def stepEvent (s : Snapshot) : StreamEvent → Snapshot
  | StreamEvent.content d => { s with text := s.text ++ d }
  | StreamEvent.sources xs => { s with sources := s.sources ++ xs }
  | StreamEvent.done cid => { s with chatId := some cid }
  | StreamEvent.error _ _ => s

/-- Modelled from the spec: tracking of a remote error event observed
while draining; a terminal `error` event records its code and message. -/
def updRemote (r : Option (String × String)) : StreamEvent → Option (String × String)
  | StreamEvent.error c m => some (c, m)
  | _ => r

/-- Modelled from the spec: the stream aggregator's state — the decoded
events not yet consumed, the decoder's malformed-JSON flag, the aggregate
built so far, any remote error event observed, and the frozen final
snapshot once the final-aggregate accessor has computed it. -/
structure Handle where
  pending : List StreamEvent
  err : Bool
  agg : Snapshot
  remote : Option (String × String)
  result : Option (Except StreamError Snapshot)

/-- Modelled from the spec: a fresh aggregator over a decoded stream,
with empty defaults and no frozen result. -/
def initHandle (r : DecodeResult) : Handle :=
  ⟨r.events, r.decodeErr, ⟨"", [], none⟩, none, none⟩

/-- Modelled from the spec: the raw iterator's single pull — the next
event in arrival order, with the aggregate updated event-by-event. -/
def pullNext (h : Handle) : Option StreamEvent × Handle :=
  match h.pending with
  | [] => (none, h)
  | e :: rest =>
    (some e, ⟨rest, h.err, stepEvent h.agg e, updRemote h.remote e, h.result⟩)

/-- Repeated pulls of the raw iterator, fuelled by a pull count. -/
def drainGo : Nat → Handle → Handle
  | 0, h => h
  | n + 1, h => drainGo n (pullNext h).2

/-- Modelled from the spec: fully draining the raw iterator — pulling
until the pending sequence is exhausted. -/
def drainIter (h : Handle) : Handle :=
  drainGo h.pending.length h

/-- Modelled from the spec: the result the final-aggregate accessor
computes from a fully drained state — a remote error event propagates as
a remote-error condition, a decode error propagates as a decode error,
and otherwise the aggregate snapshot is returned. -/
def computeResult (h : Handle) : Except StreamError Snapshot :=
  match h.remote with
  | some (c, m) => Except.error (StreamError.remote c m)
  | none => if h.err then Except.error StreamError.decode else Except.ok h.agg

/-- Modelled from the spec: the final-aggregate accessor.  It returns the
frozen snapshot if one exists; otherwise it drains the remaining
sequence to completion, computes the final result, and freezes it. -/
def finalAggregate (h : Handle) : Except StreamError Snapshot × Handle :=
  match h.result with
  | some r => (r, h)
  | none =>
    let h2 := drainIter h
    let res := computeResult h2
    (res, ⟨h2.pending, h2.err, h2.agg, h2.remote, some res⟩)

/-- Modelled from the spec: the transport-level connection underlying a
scoped stream handle — whether it has been closed, and how many active
close (cancel) signals have been sent to it. -/
structure Conn where
  closed : Bool
  closeSignals : Nat
deriving DecidableEq, Repr

/-- Modelled from the spec: actively closing the connection sends one
close signal unless the connection is already closed. -/
def closeConn (c : Conn) : Conn :=
  if c.closed then c else ⟨true, c.closeSignals + 1⟩

/-- Modelled from the spec: the scoped stream handle — the aggregator
state bound to its underlying transport connection. -/
structure ScopedStream where
  handle : Handle
  conn : Conn

/-- Modelled from the spec: acquisition opens the request with the
connection open and no close signal sent. -/
def openScoped (r : DecodeResult) : ScopedStream :=
  ⟨initHandle r, ⟨false, 0⟩⟩

/-- Modelled from the spec: pulling the next event through the scoped
handle; when the pull finds the stream exhausted, the connection is done
naturally, without an active close signal. -/
def scopedNext (s : ScopedStream) : Option StreamEvent × ScopedStream :=
  match pullNext s.handle with
  | (none, h2) => (none, ⟨h2, ⟨true, s.conn.closeSignals⟩⟩)
  | (some e, h2) => (some e, ⟨h2, s.conn⟩)

/-- Modelled from the spec: release closes the underlying connection if
it is not already closed and stops any further draining of the pending
sequence. -/
def release (s : ScopedStream) : ScopedStream :=
  ⟨⟨[], s.handle.err, s.handle.agg, s.handle.remote, s.handle.result⟩,
   closeConn s.conn⟩

/-- Invoking release a given number of times in a row. -/
def releaseN : Nat → ScopedStream → ScopedStream
  | 0, s => s
  | n + 1, s => releaseN n (release s)

/-- Modelled from the spec: the kinds of the SDK's typed error taxonomy
at the transport boundary. -/
inductive ErrorKind where
  | authentication
  | notFound
  | validation
  | rateLimit
  | server
  | generic
deriving DecidableEq, Repr

/-- Modelled from the spec: a typed transport error, carrying its kind
and the raw HTTP status code. -/
structure ApiError where
  kind : ErrorKind
  statusCode : Nat
deriving DecidableEq, Repr

/-- Modelled from the spec: the transport layer's status-code mapping —
`none` on a success status, otherwise a typed error whose kind is
selected by the status: Authentication (401), NotFound (404), Validation
(400/422), RateLimit (429), Server (5xx), and the generic catch-all
preserving the raw status code.  The transport module itself is not
under the provided sources. -/
def errorForStatus (status : Nat) : Option ApiError :=
  if 200 ≤ status ∧ status < 300 then none
  else some
    { kind :=
        if status = 401 then ErrorKind.authentication
        else if status = 404 then ErrorKind.notFound
        else if status = 400 ∨ status = 422 then ErrorKind.validation
        else if status = 429 then ErrorKind.rateLimit
        else if 500 ≤ status ∧ status ≤ 599 then ErrorKind.server
        else ErrorKind.generic,
      statusCode := status }

/-- The options record of `DocumentsClient.ingest`: an optional file
path (Node.js), an optional file/blob (its bytes are irrelevant here,
only its presence), and an optional filename. -/
structure IngestOptions where
  filePath : Option String
  file : Option Unit
  filename : Option String
deriving DecidableEq, Repr

/-- The fields of the server's JSON body that `DocumentsClient.ingest`
reads, each possibly missing (`none` stands for an absent or null
field). -/
structure IngestBody where
  success : Option Bool
  document_id : Option String
  filename : Option String
  chunks : Option Nat
deriving DecidableEq, Repr

/-- The `IngestResponse` record: exactly the fields `success`,
`document_id`, `filename`, `chunks` (option stands for string-or-null). -/
structure IngestResponse where
  success : Bool
  document_id : Option String
  filename : Option String
  chunks : Nat
deriving DecidableEq, Repr

/-- JavaScript truthiness of an optional string: absent and the empty
string are falsy. -/
def truthyStr : Option String → Bool
  | none => false
  | some s => !(s = "")

/-- The response mapping at the end of `DocumentsClient.ingest`:
`data.success ?? false`, `data.document_id ?? null`,
`data.filename ?? null`, `data.chunks ?? 0`. -/
def mkIngestResponse (data : IngestBody) : IngestResponse :=
  ⟨data.success.getD false, data.document_id, data.filename,
   data.chunks.getD 0⟩

/-- `DocumentsClient.ingest`: validates its options (throwing before any
request when they are invalid), then issues the multipart request and
maps the successful server body.  The second component counts the
network requests issued: `0` on a validation throw, `1` on the request
path.  `isNode` models the `typeof globalThis.process` check. -/
def DocumentsClient.ingest (isNode : Bool) (opts : IngestOptions)
    (body : IngestBody) : Except String IngestResponse × Nat :=
  if truthyStr opts.filePath then
    if isNode then (Except.ok (mkIngestResponse body), 1)
    else (Except.error "filePath is only supported in Node.js", 0)
  else if opts.file.isSome then
    if truthyStr opts.filename then (Except.ok (mkIngestResponse body), 1)
    else (Except.error "filename is required when providing file", 0)
  else (Except.error "Either filePath or file must be provided", 0)

/-- `formatFilesToDelete` from `src/frontend/lib/format-files-to-delete.tsx`,
with the rendered `<li>` items embedded as their text content:
`files.slice(0, maxVisible)` shows the visible filenames, and when
`remainingCount = files.length - maxVisible` is positive a trailing
"… and N more document(s)" item is appended (the TypeScript renders the
empty string, i.e. nothing, otherwise). -/
def formatFilesToDelete (files : List String) (maxVisible : Nat := 5) :
    List String :=
  let visibleFiles := files.take maxVisible
  let remainingCount : Int := (files.length : Int) - (maxVisible : Int)
  visibleFiles ++
    (if 0 < remainingCount then
      ["… and " ++ toString remainingCount ++ " more document" ++
        (if 1 < remainingCount then "s" else "")]
    else [])

/-- The spec's example `content` block carrying delta "Hel". -/
def blockContentHel : String := "\x7b\"type\":\"content\",\"delta\":\"Hel\"\x7d"

/-- The spec's example `content` block carrying delta "lo". -/
def blockContentLo : String := "\x7b\"type\":\"content\",\"delta\":\"lo\"\x7d"

/-- The spec's example `sources` block carrying one citation record. -/
def blockSourcesA : String :=
  "\x7b\"type\":\"sources\",\"sources\":[\x7b\"filename\":\"a.pdf\",\"score\":0.9,\"text\":\"...\"\x7d]\x7d"

/-- The spec's example `done` block carrying chat identifier "c1". -/
def blockDoneC1 : String := "\x7b\"type\":\"done\",\"chatId\":\"c1\"\x7d"

/-- The spec's example terminal `error` block with code `rate_limited`. -/
def blockErrorRL : String :=
  "\x7b\"type\":\"error\",\"code\":\"rate_limited\",\"message\":\"Too many requests\"\x7d"

/-- A block whose `type` discriminator is unrecognized. -/
def blockUnknownPing : String := "\x7b\"type\":\"ping\"\x7d"

/-- The example citation record of the spec's scenario. -/
def sourceA : Source := ⟨"a.pdf", 9 / 10, "..."⟩

/-- Modelled from the spec: the external `JSON.parse` evaluated on the
spec's example blocks — each example block maps to its parsed fields,
and every other string is malformed JSON. -/
def exampleParse (s : String) : Option JsonEvent :=
  if s = blockContentHel then
    some ⟨"content", some "Hel", none, none, none, none⟩
  else if s = blockContentLo then
    some ⟨"content", some "lo", none, none, none, none⟩
  else if s = blockSourcesA then
    some ⟨"sources", none, some [sourceA], none, none, none⟩
  else if s = blockDoneC1 then
    some ⟨"done", none, none, some "c1", none, none⟩
  else if s = blockErrorRL then
    some ⟨"error", none, none, none, some "rate_limited", some "Too many requests"⟩
  else if s = blockUnknownPing then
    some ⟨"ping", none, none, none, none, none⟩
  else none

lemma decodeLoop_nil (parse : String → Option JsonEvent) (buf : List String) :
    decodeLoop parse [] buf = ⟨[], false, []⟩ := rfl

lemma decodeLoop_data (parse : String → Option JsonEvent) (s : String)
    (rest : List Line) (buf : List String) :
    decodeLoop parse (Line.data s :: rest) buf = decodeLoop parse rest (buf ++ [s]) := rfl

lemma decodeLoop_blank_nil (parse : String → Option JsonEvent) (rest : List Line) :
    decodeLoop parse (Line.blank :: rest) [] = decodeLoop parse rest [] := rfl

lemma decodeLoop_blank_cons (parse : String → Option JsonEvent) (rest : List Line)
    (b : String) (bs : List String) :
    decodeLoop parse (Line.blank :: rest) (b :: bs) =
      match parse (joinLines (b :: bs)) with
      | none => ⟨[], true, rest⟩
      | some j =>
        match classify j with
        | none => decodeLoop parse rest []
        | some e =>
          if isTerminal e then ⟨[e], false, rest⟩
          else ⟨e :: (decodeLoop parse rest []).events,
                (decodeLoop parse rest []).decodeErr,
                (decodeLoop parse rest []).leftover⟩ := rfl

lemma terminal_last_aux (parse : String → Option JsonEvent) :
    ∀ ls buf e, e ∈ (decodeLoop parse ls buf).events → isTerminal e = true →
      (decodeLoop parse ls buf).events.getLast? = some e := by
  intro ls
  induction ls with
  | nil => intro buf e he _; simp [decodeLoop_nil] at he
  | cons l rest ih =>
    intro buf e he ht
    cases l with
    | data s =>
      rw [decodeLoop_data] at he ⊢
      exact ih _ e he ht
    | blank =>
      cases buf with
      | nil =>
        rw [decodeLoop_blank_nil] at he ⊢
        exact ih _ e he ht
      | cons b bs =>
        rw [decodeLoop_blank_cons] at he ⊢
        split
        · rename_i hp
          simp only [hp] at he
          simp at he
        · rename_i j hp
          simp only [hp] at he
          split
          · rename_i hc
            simp only [hc] at he
            exact ih _ e he ht
          · rename_i ev hc
            simp only [hc] at he
            split
            · rename_i hterm
              rw [if_pos hterm] at he
              simp at he
              subst he
              rfl
            · rename_i hterm
              rw [if_neg hterm] at he
              simp only [List.mem_cons] at he
              rcases he with rfl | he
              · exact absurd ht hterm
              · have hlast := ih [] e he ht
                cases hre : (decodeLoop parse rest []).events with
                | nil => rw [hre] at hlast; simp at hlast
                | cons x xs =>
                  rw [hre] at hlast
                  simp only [hre]
                  rw [List.getLast?_cons_cons]
                  exact hlast

lemma stop_append_aux (parse : String → Option JsonEvent) :
    ∀ ls buf more,
      ((decodeLoop parse ls buf).decodeErr = true ∨
       (∃ e, (decodeLoop parse ls buf).events.getLast? = some e ∧ isTerminal e = true)) →
      decodeLoop parse (ls ++ more) buf =
        ⟨(decodeLoop parse ls buf).events, (decodeLoop parse ls buf).decodeErr,
         (decodeLoop parse ls buf).leftover ++ more⟩ := by
  intro ls
  induction ls with
  | nil =>
    intro buf more h
    rw [decodeLoop_nil] at h
    simp at h
  | cons l rest ih =>
    intro buf more h
    cases l with
    | data s =>
      rw [decodeLoop_data] at h ⊢
      rw [List.cons_append, decodeLoop_data]
      exact ih _ more h
    | blank =>
      cases buf with
      | nil =>
        rw [decodeLoop_blank_nil] at h ⊢
        rw [List.cons_append, decodeLoop_blank_nil]
        exact ih _ more h
      | cons b bs =>
        rw [decodeLoop_blank_cons] at h ⊢
        rw [List.cons_append, decodeLoop_blank_cons]
        split
        · rename_i hp
          simp only [hp]
        · rename_i j hp
          simp only [hp] at h ⊢
          split
          · rename_i hc
            simp only [hc] at h ⊢
            exact ih _ more h
          · rename_i ev hc
            simp only [hc] at h ⊢
            split
            · rfl
            · rename_i hterm
              rw [if_neg hterm] at h
              have hr : (decodeLoop parse rest []).decodeErr = true ∨
                  (∃ e, (decodeLoop parse rest []).events.getLast? = some e ∧
                    isTerminal e = true) := by
                rcases h with h | ⟨e, hlast, hte⟩
                · exact Or.inl h
                · right
                  have hlast2 : (ev :: (decodeLoop parse rest []).events).getLast? = some e :=
                    hlast
                  cases hre : (decodeLoop parse rest []).events with
                  | nil =>
                    rw [hre] at hlast2
                    simp at hlast2
                    subst hlast2
                    exact absurd hte hterm
                  | cons x xs =>
                    rw [hre, List.getLast?_cons_cons] at hlast2
                    exact ⟨e, hlast2, hte⟩
              rw [ih [] more hr]

lemma decodeLoop_block (parse : String → Option JsonEvent) (b : String) (rest : List Line) :
    decodeLoop parse (Line.data b :: Line.blank :: rest) [] =
      match parse b with
      | none => ⟨[], true, rest⟩
      | some j =>
        match classify j with
        | none => decodeLoop parse rest []
        | some e =>
          if isTerminal e then ⟨[e], false, rest⟩
          else ⟨e :: (decodeLoop parse rest []).events,
                (decodeLoop parse rest []).decodeErr,
                (decodeLoop parse rest []).leftover⟩ := rfl

lemma decodeLoop_dataOnly (parse : String → Option JsonEvent) :
    ∀ ds buf, decodeLoop parse (List.map Line.data ds) buf = ⟨[], false, []⟩ := by
  intro ds
  induction ds with
  | nil => intro buf; rfl
  | cons d ds ih =>
    intro buf
    rw [List.map_cons, decodeLoop_data]
    exact ih _

lemma decode_unknown_skipped (parse : String → Option JsonEvent)
    (bs1 : List String) (s : String) (j : JsonEvent) (bs2 : List String)
    (hp : parse s = some j) (hc : classify j = none) :
    (decodeLoop parse (encode (bs1 ++ s :: bs2)) []).events
        = (decodeLoop parse (encode (bs1 ++ bs2)) []).events
    ∧ (decodeLoop parse (encode (bs1 ++ s :: bs2)) []).decodeErr
        = (decodeLoop parse (encode (bs1 ++ bs2)) []).decodeErr := by
  induction bs1 with
  | nil =>
    simp only [List.nil_append]
    rw [show encode (s :: bs2) = Line.data s :: Line.blank :: encode bs2 from rfl,
      decodeLoop_block]
    simp [hp, hc]
  | cons b bs1 ih =>
    rw [show encode ((b :: bs1) ++ s :: bs2)
          = Line.data b :: Line.blank :: encode (bs1 ++ s :: bs2) from rfl,
      show encode ((b :: bs1) ++ bs2)
          = Line.data b :: Line.blank :: encode (bs1 ++ bs2) from rfl,
      decodeLoop_block, decodeLoop_block]
    split
    · rename_i hb
      exact ⟨rfl, rfl⟩
    · rename_i j2 hb
      try simp only [hb]
      split
      · rename_i hc2
        try simp only [hc2]
        exact ih
      · rename_i ev hc2
        try simp only [hc2]
        split
        · rename_i hterm
          exact ⟨rfl, rfl⟩
        · rename_i hterm
          exact ⟨by rw [ih.1], ih.2⟩

lemma decode_malformed_stops (parse : String → Option JsonEvent)
    (bs1 : List String) (s : String) (bs2 : List String)
    (hp : parse s = none) (hclean : ∀ b ∈ bs1, cleanBlock parse b = true) :
    decodeLoop parse (encode (bs1 ++ s :: bs2)) []
      = ⟨eventsOf parse bs1, true, encode bs2⟩ := by
  induction bs1 with
  | nil =>
    simp only [List.nil_append]
    rw [show encode (s :: bs2) = Line.data s :: Line.blank :: encode bs2 from rfl,
      decodeLoop_block]
    simp [hp, eventsOf]
  | cons b bs1 ih =>
    have hb : cleanBlock parse b = true := hclean b (List.mem_cons_self b bs1)
    have hclean1 : ∀ x ∈ bs1, cleanBlock parse x = true :=
      fun x hx => hclean x (List.mem_cons_of_mem b hx)
    rw [show encode ((b :: bs1) ++ s :: bs2)
          = Line.data b :: Line.blank :: encode (bs1 ++ s :: bs2) from rfl,
      decodeLoop_block]
    unfold cleanBlock at hb
    split
    · rename_i hpb
      simp [hpb] at hb
    · rename_i j2 hpb
      simp only [hpb] at hb
      split
      · rename_i hc2
        rw [ih hclean1]
        have : eventsOf parse (b :: bs1) = eventsOf parse bs1 := by
          unfold eventsOf blockEvent
          rw [List.filterMap_cons]
          simp [hpb, hc2]
        rw [this]
      · rename_i ev hc2
        simp only [hc2] at hb
        have hterm : isTerminal ev = false := by
          cases hev : isTerminal ev
          · rfl
          · rw [hev] at hb; simp at hb
        rw [if_neg (by simp [hterm])]
        rw [ih hclean1]
        have : eventsOf parse (b :: bs1) = ev :: eventsOf parse bs1 := by
          unfold eventsOf blockEvent
          rw [List.filterMap_cons]
          simp [hpb, hc2]
        rw [this]

lemma decode_truncated_tail (parse : String → Option JsonEvent)
    (bs : List String) (ds : List String) :
    (decodeLoop parse (encode bs ++ List.map Line.data ds) []).events
        = (decodeLoop parse (encode bs) []).events
    ∧ (decodeLoop parse (encode bs ++ List.map Line.data ds) []).decodeErr
        = (decodeLoop parse (encode bs) []).decodeErr := by
  induction bs with
  | nil =>
    rw [show encode [] ++ List.map Line.data ds = List.map Line.data ds from by
        simp [encode]]
    rw [decodeLoop_dataOnly]
    exact ⟨rfl, rfl⟩
  | cons b bs ih =>
    rw [show encode (b :: bs) ++ List.map Line.data ds
          = Line.data b :: Line.blank :: (encode bs ++ List.map Line.data ds) from rfl,
      show encode (b :: bs) = Line.data b :: Line.blank :: encode bs from rfl,
      decodeLoop_block, decodeLoop_block]
    split
    · rename_i hb
      exact ⟨rfl, rfl⟩
    · rename_i j2 hb
      try simp only [hb]
      split
      · rename_i hc2
        try simp only [hc2]
        exact ih
      · rename_i ev hc2
        try simp only [hc2]
        split
        · rename_i hterm
          exact ⟨rfl, rfl⟩
        · rename_i hterm
          exact ⟨by rw [ih.1], ih.2⟩

lemma drainGo_spec : ∀ (evs : List StreamEvent) (err : Bool) (agg : Snapshot)
    (rem : Option (String × String)) (res : Option (Except StreamError Snapshot)),
    drainGo evs.length ⟨evs, err, agg, rem, res⟩ =
      ⟨[], err, evs.foldl stepEvent agg, evs.foldl updRemote rem, res⟩ := by
  intro evs
  induction evs with
  | nil => intro err agg rem res; rfl
  | cons e evs ih =>
    intro err agg rem res
    rw [show (e :: evs).length = evs.length + 1 from rfl]
    rw [show drainGo (evs.length + 1) ⟨e :: evs, err, agg, rem, res⟩
          = drainGo evs.length ⟨evs, err, stepEvent agg e, updRemote rem e, res⟩ from rfl]
    rw [ih]
    rfl

lemma drainIter_spec (h : Handle) :
    drainIter h = ⟨[], h.err, h.pending.foldl stepEvent h.agg,
      h.pending.foldl updRemote h.remote, h.result⟩ := by
  obtain ⟨p, e, a, r, s⟩ := h
  exact drainGo_spec p e a r s

lemma drainIter_idem (h : Handle) : drainIter (drainIter h) = drainIter h := by
  rw [drainIter_spec h]
  rfl

lemma finalAggregate_result_none (h : Handle) (hres : h.result = none) :
    finalAggregate h =
      (computeResult (drainIter h),
       ⟨(drainIter h).pending, (drainIter h).err, (drainIter h).agg,
        (drainIter h).remote, some (computeResult (drainIter h))⟩) := by
  unfold finalAggregate
  rw [hres]

lemma finalAggregate_result_some (h : Handle) (r0 : Except StreamError Snapshot)
    (hres : h.result = some r0) : finalAggregate h = (r0, h) := by
  unfold finalAggregate
  rw [hres]

lemma foldl_stepEvent_content_sources :
    ∀ (es : List StreamEvent),
      (∀ e ∈ es, (∃ d, e = StreamEvent.content d) ∨ (∃ xs, e = StreamEvent.sources xs)) →
      ∀ (t : String) (s : List Source) (c : Option String),
        es.foldl stepEvent ⟨t, s, c⟩ =
          ⟨t ++ concatDeltas es, s ++ concatSources es, c⟩ := by
  intro es
  induction es with
  | nil => intro _ t s c; simp [concatDeltas, concatSources]
  | cons e es ih =>
    intro hcs t s c
    have he := hcs e (List.mem_cons_self e es)
    have hrest : ∀ x ∈ es, (∃ d, x = StreamEvent.content d) ∨ (∃ xs, x = StreamEvent.sources xs) :=
      fun x hx => hcs x (List.mem_cons_of_mem e hx)
    rcases he with ⟨d, rfl⟩ | ⟨xs, rfl⟩
    · rw [List.foldl_cons]
      rw [show stepEvent ⟨t, s, c⟩ (StreamEvent.content d) = ⟨t ++ d, s, c⟩ from rfl]
      rw [ih hrest]
      rw [show concatDeltas (StreamEvent.content d :: es) = d ++ concatDeltas es from rfl,
        show concatSources (StreamEvent.content d :: es) = concatSources es from rfl]
      rw [String.append_assoc]
    · rw [List.foldl_cons]
      rw [show stepEvent ⟨t, s, c⟩ (StreamEvent.sources xs) = ⟨t, s ++ xs, c⟩ from rfl]
      rw [ih hrest]
      rw [show concatDeltas (StreamEvent.sources xs :: es) = concatDeltas es from rfl,
        show concatSources (StreamEvent.sources xs :: es) = xs ++ concatSources es from rfl]
      rw [List.append_assoc]

lemma foldl_updRemote_no_error :
    ∀ (es : List StreamEvent) (r : Option (String × String)),
      (∀ c m, StreamEvent.error c m ∉ es) → es.foldl updRemote r = r := by
  intro es
  induction es with
  | nil => intro r _; rfl
  | cons e es ih =>
    intro r hne
    rw [List.foldl_cons]
    have hrest : ∀ c m, StreamEvent.error c m ∉ es :=
      fun c m hm => hne c m (List.mem_cons_of_mem e hm)
    cases e with
    | error c m => exact absurd (List.mem_cons_self _ _) (hne c m)
    | content d => exact ih r hrest
    | sources xs => exact ih r hrest
    | done cid => exact ih r hrest

/-- C1: for every well-formed stream of encoded event blocks terminated by
a `done` block, the final-aggregate accessor returns text equal to the
concatenation of all `content` deltas in arrival order, a source list
equal to the concatenation of all `sources` payload entries in arrival
order, and the conversation identifier from the `done` block. -/
theorem final_aggregate_concats_deltas_sources
    (parse : String → Option JsonEvent) (ls : List Line)
    (es : List StreamEvent) (cid : String)
    (hdec : decodeLoop parse ls [] = ⟨es ++ [StreamEvent.done cid], false, []⟩)
    (hcs : ∀ e ∈ es, (∃ d, e = StreamEvent.content d) ∨ (∃ xs, e = StreamEvent.sources xs)) :
    (finalAggregate (initHandle (decodeLoop parse ls []))).1
      = Except.ok ⟨concatDeltas es, concatSources es, some cid⟩ := by
  rw [hdec]
  rw [finalAggregate_result_none _ rfl]
  simp only
  rw [drainIter_spec]
  have hnoerr : ∀ c m, StreamEvent.error c m ∉ es ++ [StreamEvent.done cid] := by
    intro c m hm
    rcases List.mem_append.mp hm with hm | hm
    · rcases hcs _ hm with ⟨d, h⟩ | ⟨xs, h⟩ <;> simp at h
    · simp at hm
  show computeResult _ = _
  rw [show (initHandle ⟨es ++ [StreamEvent.done cid], false, []⟩).pending
        = es ++ [StreamEvent.done cid] from rfl,
    show (initHandle ⟨es ++ [StreamEvent.done cid], false, []⟩).agg
        = ⟨"", [], none⟩ from rfl,
    show (initHandle ⟨es ++ [StreamEvent.done cid], false, []⟩).remote = none from rfl]
  rw [foldl_updRemote_no_error _ none hnoerr]
  rw [List.foldl_append]
  rw [foldl_stepEvent_content_sources es hcs "" [] none]
  simp [computeResult, stepEvent, initHandle]

/-- Witness for C1: the spec's example scenario — blocks content "Hel",
content "lo", one sources entry, done "c1" — yields the aggregate
text "Hello", sources [a.pdf], chatId "c1". -/
theorem final_aggregate_concats_deltas_sources_witness :
    (finalAggregate (initHandle (decodeLoop exampleParse
        (encode [blockContentHel, blockContentLo, blockSourcesA, blockDoneC1]) []))).1
      = Except.ok ⟨"Hello", [sourceA], some "c1"⟩ := by
  have h := final_aggregate_concats_deltas_sources exampleParse
    (encode [blockContentHel, blockContentLo, blockSourcesA, blockDoneC1])
    [StreamEvent.content "Hel", StreamEvent.content "lo", StreamEvent.sources [sourceA]]
    "c1" (by rfl)
    (by
      intro e he
      simp only [List.mem_cons, List.not_mem_nil, or_false] at he
      rcases he with rfl | rfl | rfl
      · exact Or.inl ⟨"Hel", rfl⟩
      · exact Or.inl ⟨"lo", rfl⟩
      · exact Or.inr ⟨[sourceA], rfl⟩)
  exact h.trans rfl

/-- C2: fully draining the raw event iterator and then calling the
final-aggregate accessor yields the same snapshot as calling the accessor
directly, and every repeated call of the accessor returns the same frozen
snapshot without re-draining (the handle is returned unchanged). -/
theorem final_aggregate_drain_equivalence (r : DecodeResult) :
    ((finalAggregate (drainIter (initHandle r))).1 = (finalAggregate (initHandle r)).1)
    ∧ (∀ h : Handle,
        finalAggregate (finalAggregate h).2 = ((finalAggregate h).1, (finalAggregate h).2)) := by
  constructor
  · have h0 : (initHandle r).result = none := rfl
    have hd : (drainIter (initHandle r)).result = none := by
      rw [drainIter_spec]
      exact h0
    rw [finalAggregate_result_none _ hd, finalAggregate_result_none _ h0]
    simp only
    rw [drainIter_idem]
  · intro h
    cases hres : h.result with
    | some r0 =>
      rw [finalAggregate_result_some h r0 hres]
      exact finalAggregate_result_some h r0 hres
    | none =>
      rw [finalAggregate_result_none h hres]
      simp only
      rw [finalAggregate_result_some _ _ rfl]

lemma closeConn_idem (c : Conn) : closeConn (closeConn c) = closeConn c := by
  unfold closeConn
  cases hc : c.closed
  · simp [hc]
  · simp [hc]

lemma release_idem (s : ScopedStream) : release (release s) = release s := by
  unfold release
  rw [closeConn_idem]

lemma releaseN_succ_collapse : ∀ (n : Nat) (s : ScopedStream),
    releaseN (n + 1) s = release s := by
  intro n
  induction n with
  | zero => intro s; rfl
  | succ m ih =>
    intro s
    rw [show releaseN (m + 1 + 1) s = releaseN (m + 1) (release s) from rfl]
    rw [ih (release s)]
    exact release_idem s

/-- C3: abandoning iteration after the first event and then releasing the
scope produces exactly one underlying-connection-close signal regardless
of how many times release is invoked; release is idempotent, and releasing
mid-stream actively closes the transport-level connection. -/
theorem release_exactly_one_close_signal :
    (∀ s : ScopedStream, release (release s) = release s)
    ∧ (∀ r : DecodeResult, 1 ≤ r.events.length → ∀ n : Nat, 1 ≤ n →
        (releaseN n ((scopedNext (openScoped r)).2)).conn.closeSignals = 1
        ∧ (releaseN n ((scopedNext (openScoped r)).2)).conn.closed = true) := by
  constructor
  · exact release_idem
  · intro r hr n hn
    obtain ⟨evs, derr, left⟩ := r
    cases evs with
    | nil => simp at hr
    | cons e rest =>
      obtain ⟨m, rfl⟩ : ∃ m, n = m + 1 := by
        cases n with
        | zero => omega
        | succ m => exact ⟨m, rfl⟩
      rw [releaseN_succ_collapse]
      constructor
      · rfl
      · rfl

/-- Witness for C3: a stream with two events, abandoned after the first
event, then released three times: exactly one close signal, connection
closed. -/
theorem release_exactly_one_close_signal_witness :
    (releaseN 3 ((scopedNext (openScoped
        ⟨[StreamEvent.content "a", StreamEvent.done "c"], false, []⟩)).2)).conn.closeSignals = 1
    ∧ (releaseN 3 ((scopedNext (openScoped
        ⟨[StreamEvent.content "a", StreamEvent.done "c"], false, []⟩)).2)).conn.closed = true :=
  release_exactly_one_close_signal.2
    ⟨[StreamEvent.content "a", StreamEvent.done "c"], false, []⟩ (by decide) 3 (by decide)

/-- C4: once a `done` or `error` event has been observed it is the last
event of its stream — any terminal event among the decoded events is the
final one, and when decoding ended at a terminal event, appending further
transport lines delivers no further event and leaves them unrequested in
the leftover; in particular the terminal rate_limited error block makes
the consumption path raise a remote error carrying code rate_limited,
with the following block never pulled. -/
theorem terminal_event_last_none_pulled_after :
    (∀ (parse : String → Option JsonEvent) (ls : List Line)
       (events : List StreamEvent) (derr : Bool) (left : List Line),
       decodeLoop parse ls [] = ⟨events, derr, left⟩ →
       ((∀ e, e ∈ events → isTerminal e = true → events.getLast? = some e)
        ∧ ((∃ e, events.getLast? = some e ∧ isTerminal e = true) →
           ∀ more, decodeLoop parse (ls ++ more) [] = ⟨events, derr, left ++ more⟩)))
    ∧ ((finalAggregate (initHandle (decodeLoop exampleParse
          (encode [blockErrorRL, blockDoneC1]) []))).1
        = Except.error (StreamError.remote "rate_limited" "Too many requests")
       ∧ (decodeLoop exampleParse (encode [blockErrorRL, blockDoneC1]) []).leftover
          = encode [blockDoneC1]) := by
  constructor
  · intro parse ls events derr left hdec
    constructor
    · intro e he ht
      have := terminal_last_aux parse ls [] e (by rw [hdec]; exact he) ht
      rw [hdec] at this
      exact this
    · intro hterm more
      have hstop : (decodeLoop parse ls []).decodeErr = true ∨
          (∃ e, (decodeLoop parse ls []).events.getLast? = some e ∧ isTerminal e = true) := by
        right
        rw [hdec]
        exact hterm
      have := stop_append_aux parse ls [] more hstop
      rw [hdec] at this
      exact this
  · exact ⟨rfl, rfl⟩

/-- Witness for C4: a stream whose single block is the `done` block, with
one extra blank line appended afterwards — the decoded events are
unchanged and the extra line stays in the leftover. -/
theorem terminal_event_last_none_pulled_after_witness :
    decodeLoop exampleParse (encode [blockDoneC1] ++ [Line.blank]) []
      = ⟨[StreamEvent.done "c1"], false, [Line.blank]⟩ := by
  have h := (terminal_event_last_none_pulled_after.1 exampleParse (encode [blockDoneC1])
    [StreamEvent.done "c1"] false [] (by rfl)).2
    ⟨StreamEvent.done "c1", rfl, rfl⟩ [Line.blank]
  exact h

/-- C5: a complete event block with an unrecognized `type` discriminator
is skipped without raising, leaving all other events unaffected, while a
block whose data is malformed JSON raises a decode error that terminates
the event sequence. -/
theorem unknown_type_skipped_malformed_raises :
    (∀ (parse : String → Option JsonEvent) (bs1 : List String) (s : String)
       (j : JsonEvent) (bs2 : List String),
       parse s = some j → classify j = none →
       (decodeLoop parse (encode (bs1 ++ s :: bs2)) []).events
           = (decodeLoop parse (encode (bs1 ++ bs2)) []).events
       ∧ (decodeLoop parse (encode (bs1 ++ s :: bs2)) []).decodeErr
           = (decodeLoop parse (encode (bs1 ++ bs2)) []).decodeErr)
    ∧ (∀ (parse : String → Option JsonEvent) (bs1 : List String) (s : String)
       (bs2 : List String),
       parse s = none → (∀ b ∈ bs1, cleanBlock parse b = true) →
       decodeLoop parse (encode (bs1 ++ s :: bs2)) []
         = ⟨eventsOf parse bs1, true, encode bs2⟩) := by
  constructor
  · intro parse bs1 s j bs2 hp hc
    exact decode_unknown_skipped parse bs1 s j bs2 hp hc
  · intro parse bs1 s bs2 hp hclean
    exact decode_malformed_stops parse bs1 s bs2 hp hclean

/-- Witness for C5: inserting the unrecognized "ping" block between the
content block and the done block leaves the decoded events unchanged, and
a malformed block after a clean content block stops decoding with a
decode error. -/
theorem unknown_type_skipped_malformed_raises_witness :
    ((decodeLoop exampleParse (encode ([blockContentHel] ++ blockUnknownPing :: [blockDoneC1])) []).events
        = (decodeLoop exampleParse (encode ([blockContentHel] ++ [blockDoneC1])) []).events)
    ∧ (decodeLoop exampleParse (encode ([blockContentHel] ++ "not json" :: [blockDoneC1])) []
        = ⟨[StreamEvent.content "Hel"], true, encode [blockDoneC1]⟩) := by
  constructor
  · exact (unknown_type_skipped_malformed_raises.1 exampleParse [blockContentHel]
      blockUnknownPing ⟨"ping", none, none, none, none, none⟩ [blockDoneC1] rfl rfl).1
  · have h := unknown_type_skipped_malformed_raises.2 exampleParse [blockContentHel]
      "not json" [blockDoneC1] rfl
      (by
        intro b hb
        simp only [List.mem_singleton] at hb
        subst hb
        rfl)
    exact h.trans rfl

/-- C6: a byte stream that ends mid-block (no trailing blank line) yields
all prior complete events and silently discards the trailing partial
block — the trailing data lines change neither the decoded events nor the
decode-error flag. -/
theorem truncated_tail_silently_discarded
    (parse : String → Option JsonEvent) (bs : List String) (ds : List String) :
    (decodeLoop parse (encode bs ++ ds.map Line.data) []).events
        = (decodeLoop parse (encode bs) []).events
    ∧ (decodeLoop parse (encode bs ++ ds.map Line.data) []).decodeErr
        = (decodeLoop parse (encode bs) []).decodeErr :=
  decode_truncated_tail parse bs ds

/-- C7: for every non-success HTTP status, the transport raises a typed
error whose kind is selected by the status — Authentication for 401,
NotFound for 404, Validation for 400 and 422, RateLimit for 429, Server
for 5xx, and otherwise a generic error preserving the raw status code. -/
theorem error_kind_selected_by_status (s : Nat) (hns : ¬(200 ≤ s ∧ s < 300)) :
    (s = 401 → errorForStatus s = some ⟨ErrorKind.authentication, s⟩)
    ∧ (s = 404 → errorForStatus s = some ⟨ErrorKind.notFound, s⟩)
    ∧ (s = 400 ∨ s = 422 → errorForStatus s = some ⟨ErrorKind.validation, s⟩)
    ∧ (s = 429 → errorForStatus s = some ⟨ErrorKind.rateLimit, s⟩)
    ∧ (500 ≤ s ∧ s ≤ 599 → errorForStatus s = some ⟨ErrorKind.server, s⟩)
    ∧ (s ≠ 401 → s ≠ 404 → s ≠ 400 → s ≠ 422 → s ≠ 429 → ¬(500 ≤ s ∧ s ≤ 599) →
        errorForStatus s = some ⟨ErrorKind.generic, s⟩) := by
  refine ⟨?_, ?_, ?_, ?_, ?_, ?_⟩
  · intro h1; subst h1; rfl
  · intro h1; subst h1; rfl
  · rintro (h1 | h1) <;> subst h1 <;> rfl
  · intro h1; subst h1; rfl
  · intro h1
    unfold errorForStatus
    rw [if_neg hns]
    rw [if_neg (by omega), if_neg (by omega), if_neg (by omega), if_neg (by omega),
      if_pos h1]
  · intro h1 h2 h3 h4 h5 h6
    unfold errorForStatus
    rw [if_neg hns]
    rw [if_neg h1, if_neg h2, if_neg (by omega), if_neg h5, if_neg h6]

/-- Witness for C7: 401 maps to the authentication kind and 418 (a
non-success status outside every special case) to the generic kind with
the raw status preserved. -/
theorem error_kind_selected_by_status_witness :
    errorForStatus 401 = some ⟨ErrorKind.authentication, 401⟩
    ∧ errorForStatus 418 = some ⟨ErrorKind.generic, 418⟩ :=
  ⟨(error_kind_selected_by_status 401 (by omega)).1 rfl,
   (error_kind_selected_by_status 418 (by omega)).2.2.2.2.2
     (by omega) (by omega) (by omega) (by omega) (by omega) (by omega)⟩

/-- C8: for every successful server response, `DocumentsClient.ingest`
resolves to a record with exactly the fields success, document_id,
filename and chunks, substituting the defaults false, null, null and 0
for any field missing from the server's JSON body. -/
theorem ingest_response_field_defaults (body : IngestBody) :
    (∀ opts : IngestOptions, truthyStr opts.filePath = true →
        DocumentsClient.ingest true opts body = (Except.ok (mkIngestResponse body), 1))
    ∧ (body.success = none → (mkIngestResponse body).success = false)
    ∧ (body.document_id = none → (mkIngestResponse body).document_id = none)
    ∧ (body.filename = none → (mkIngestResponse body).filename = none)
    ∧ (body.chunks = none → (mkIngestResponse body).chunks = 0) := by
  refine ⟨?_, ?_, ?_, ?_, ?_⟩
  · intro opts h
    unfold DocumentsClient.ingest
    rw [if_pos h, if_pos rfl]
  · intro h; simp [mkIngestResponse, h]
  · intro h; simp [mkIngestResponse, h]
  · intro h; simp [mkIngestResponse, h]
  · intro h; simp [mkIngestResponse, h]

/-- Witness for C8: an ingestion with a file path against a server body
missing every field resolves to the all-defaults record. -/
theorem ingest_response_field_defaults_witness :
    DocumentsClient.ingest true ⟨some "report.pdf", none, none⟩ ⟨none, none, none, none⟩
      = (Except.ok ⟨false, none, none, 0⟩, 1) := by
  have h := (ingest_response_field_defaults ⟨none, none, none, none⟩).1
    ⟨some "report.pdf", none, none⟩ rfl
  exact h.trans rfl

/-- C9: `DocumentsClient.ingest` throws before issuing any request when
its preconditions are violated — "Either filePath or file must be
provided" when the options carry neither filePath nor file, and
"filename is required when providing file" when a file is supplied
without a filename; the request count 0 records that no network request
is made in either case. -/
theorem ingest_precondition_throws (isNode : Bool) (opts : IngestOptions)
    (body : IngestBody) :
    (opts.filePath = none → opts.file = none →
      DocumentsClient.ingest isNode opts body
        = (Except.error "Either filePath or file must be provided", 0))
    ∧ (opts.filePath = none → opts.file.isSome = true → opts.filename = none →
      DocumentsClient.ingest isNode opts body
        = (Except.error "filename is required when providing file", 0)) := by
  constructor
  · intro hp hf
    unfold DocumentsClient.ingest
    rw [if_neg (by simp [hp, truthyStr]), if_neg (by simp [hf])]
  · intro hp hf hn
    unfold DocumentsClient.ingest
    rw [if_neg (by simp [hp, truthyStr]), if_pos hf, if_neg (by simp [hn, truthyStr])]

/-- Witness for C9: both precondition violations at concrete options —
no file source at all, and a file supplied without a filename. -/
theorem ingest_precondition_throws_witness :
    (DocumentsClient.ingest true ⟨none, none, none⟩ ⟨none, none, none, none⟩
        = (Except.error "Either filePath or file must be provided", 0))
    ∧ (DocumentsClient.ingest true ⟨none, some (), none⟩ ⟨none, none, none, none⟩
        = (Except.error "filename is required when providing file", 0)) :=
  ⟨(ingest_precondition_throws true ⟨none, none, none⟩ ⟨none, none, none, none⟩).1 rfl rfl,
   (ingest_precondition_throws true ⟨none, some (), none⟩ ⟨none, none, none, none⟩).2 rfl rfl rfl⟩

/-- C10: `formatFilesToDelete` renders the filenames of exactly the first
min(length, maxVisible) files in their original order, followed by a
trailing "… and N more document(s)" item if and only if
length > maxVisible, where N = length − maxVisible and the word is
pluralized exactly when N > 1. -/
theorem format_files_to_delete_truncates (files : List String) (maxVisible : Nat) :
    formatFilesToDelete files maxVisible
      = files.take (min files.length maxVisible)
        ++ (if maxVisible < files.length then
              ["… and " ++ toString (files.length - maxVisible) ++ " more document" ++
                (if 1 < files.length - maxVisible then "s" else "")]
            else []) := by
  simp only [formatFilesToDelete]
  have htake : files.take maxVisible = files.take (min files.length maxVisible) := by
    rw [List.take_eq_take]
    omega
  rw [htake]
  by_cases hlt : maxVisible < files.length
  · rw [if_pos hlt]
    rw [if_pos (by omega : (0 : Int) < (files.length : Int) - (maxVisible : Int))]
    have hN : ((files.length : Int) - (maxVisible : Int))
        = ((files.length - maxVisible : Nat) : Int) := by omega
    rw [hN]
    have hplural : ((1 : Int) < ((files.length - maxVisible : Nat) : Int))
        ↔ (1 < files.length - maxVisible) := by omega
    rw [show toString (((files.length - maxVisible : Nat) : Int))
          = toString (files.length - maxVisible) from rfl]
    by_cases hp : 1 < files.length - maxVisible
    · rw [if_pos (hplural.mpr hp), if_pos hp]
    · rw [if_neg (fun hc => hp (hplural.mp hc)), if_neg hp]
  · rw [if_neg hlt]
    rw [if_neg (by omega : ¬((0 : Int) < (files.length : Int) - (maxVisible : Int)))]
